import Mathlib

/-!
Verification development for the `purplehoge-portfolio` repository.

The JavaScript sources (`js/github-api.js`, `js/main.js`, and the utility
module) are shallowly embedded below: pure computations become Lean
functions, the stateful `GitHubApiClient` becomes explicit state passing
over a `ClientState` record, browser/HTTP effects (the DOM query functions,
`fetch`, `Date.now()`, `setTimeout`) are modelled as explicit parameters or
oracles, and `console` / `loadingManager` logging calls are modelled as
no-ops since they do not affect any value or state studied here.
-/

/-! ## Generic string helpers mirroring JavaScript built-ins -/

/-- Models JavaScript `String.prototype.includes` (substring test). -/
def strIncludes (s needle : String) : Bool :=
  decide (needle.data <:+: s.data)

/-- Models JavaScript `String.prototype.endsWith`. -/
def strEndsWith (s post : String) : Bool :=
  post.data.isSuffixOf s.data

/-- Models JavaScript `String.prototype.toLowerCase` (the strings in play
are ASCII, where per-character lowering is exact). -/
def strToLower (s : String) : String :=
  String.mk (s.data.map Char.toLower)

/-- The characters JavaScript `String.prototype.trim` strips. -/
def isJsWhitespace (c : Char) : Bool :=
  c = ' ' || c = '\t' || c = '\n' || c = '\r'

/-- Models JavaScript `String.prototype.trim`. -/
def strTrim (s : String) : String :=
  String.mk (((s.data.dropWhile isJsWhitespace).reverse.dropWhile isJsWhitespace).reverse)

/-- Splits at the first occurrence of `sep` (which must be nonempty to be
found): returns the part before it and the part after it. -/
def breakOnFirst (sep : List Char) : List Char → Option (List Char × List Char)
  | [] => none
  | c :: cs =>
    if sep.isPrefixOf (c :: cs) then some ([], (c :: cs).drop sep.length)
    else
      match breakOnFirst sep cs with
      | none => none
      | some (before, after) => some (c :: before, after)

/-- JavaScript truthiness of a nullable string: `null`/`undefined` and the
empty string are falsy, every other string is truthy. -/
def truthy : Option String → Bool
  | none => false
  | some s => s ≠ ""

/-- Result of the browser `URL` constructor, restricted to the two fields
the code reads. `protocol` keeps the trailing colon (e.g. `"https:"`),
and `hostname` is lower-cased, as in the browser. -/
structure UrlObj where
  protocol : String
  hostname : String
deriving DecidableEq

/-- Models the browser `new URL(s)` constructor, simplified to
`scheme://[userinfo@]host[:port][/...]` shapes: the scheme is whatever
stands before the first `"://"`, the authority runs to the first `/`, `?`
or `#`, user-info and port are stripped, and scheme or host being empty
makes parsing fail (returns `none`, modelling the thrown `TypeError`). -/
def parseUrl (s : String) : Option UrlObj :=
  match breakOnFirst "://".data s.data with
  | none => none
  | some (scheme, rest) =>
    if scheme = [] then none
    else
      let authority := rest.takeWhile (fun c => c ≠ '/' && c ≠ '?' && c ≠ '#')
      let hostPort := (authority.reverse.takeWhile (fun c => c ≠ '@')).reverse
      let host := hostPort.takeWhile (fun c => c ≠ ':')
      if host = [] then none
      else
        some { protocol := strToLower (String.mk scheme) ++ ":"
               hostname := strToLower (String.mk host) }

/-! ## `js/github-api.js` : configuration and raw data model -/

/-- The `GITHUB_CONFIG` object literal. -/
structure GithubConfig where
  USERNAME : String
  API_BASE_URL : String
  CACHE_DURATION : Int
  RATE_LIMIT_DELAY : Int
  MAX_REPOS : Nat
  EXCLUDED_REPOS : List String
deriving DecidableEq

/-- `GITHUB_CONFIG` from `js/github-api.js`. -/
def GITHUB_CONFIG : GithubConfig :=
  { USERNAME := "purplehoge"
    API_BASE_URL := "https://api.github.com"
    CACHE_DURATION := 3600000
    RATE_LIMIT_DELAY := 1000
    MAX_REPOS := 10
    EXCLUDED_REPOS := ["purplehoge", "README"] }

/-- A raw repository object as returned by the GitHub REST API, restricted
to the fields the code reads. Fields that may be `null`/absent in the JSON
are `Option`s. The two date fields are kept as their raw wire strings
(`new Date(...)` conversion is irrelevant to every claim below). -/
structure RawRepo where
  name : String
  fork : Bool
  description : Option String
  homepage : Option String
  language : Option String
  topics : Option (List String)
  stargazers_count : Option Nat
  html_url : String
  updated_at : String
  created_at : String
deriving DecidableEq

/-- The `githubData` sub-record of a processed repository entry. -/
structure GithubData where
  stars : Option Nat
  language : Option String
  updatedAt : String
  createdAt : String
  topics : List String
deriving DecidableEq

/-- A processed repository entry (the record built in
`processRepositories`). `image` is always `null` in the code and is kept
for fidelity. -/
structure ProjectEntry where
  id : String
  title : String
  description : String
  technologies : List String
  image : Option String
  demoUrl : Option String
  sourceUrl : String
  status : String
  featured : Bool
  githubData : GithubData
deriving DecidableEq

/-! ## `js/github-api.js` : technology extraction -/

/-- `GitHubApiClient.isTechnologyTopic`. -/
def isTechnologyTopic (topic : String) : Bool :=
  let techKeywords :=
    ["javascript", "typescript", "python", "java", "html", "css",
     "react", "vue", "angular", "node", "express", "flask", "django",
     "git", "docker", "mongodb", "mysql", "postgresql",
     "frontend", "backend", "api", "rest"]
  techKeywords.any (fun keyword => strIncludes (strToLower topic) keyword)

/-- `GitHubApiClient.normalizeTechnologyName`. The `nameMap` lookup falls
back to capitalising the first character (on the empty string JavaScript's
`charAt(0) + slice(1)` yields the empty string again). -/
def normalizeTechnologyName (tech : String) : String :=
  let normalized : Option String :=
    match strToLower tech with
    | "javascript" => some "JavaScript"
    | "typescript" => some "TypeScript"
    | "python" => some "Python"
    | "html" => some "HTML"
    | "css" => some "CSS"
    | "react" => some "React"
    | "vue" => some "Vue.js"
    | "node" => some "Node.js"
    | _ => none
  match normalized with
  | some n => n
  | none =>
    match tech.data with
    | [] => ""
    | c :: rest => String.mk (c.toUpper :: rest)

/-- Worker for `dedupFirst`: `seen` collects the values already emitted. -/
def dedupFirstAux (seen : List String) : List String → List String
  | [] => []
  | x :: xs =>
    if seen.contains x then dedupFirstAux seen xs
    else x :: dedupFirstAux (x :: seen) xs

/-- First-occurrence deduplication, modelling `[...new Set(array)]`
(a JavaScript `Set` keeps insertion order of first occurrences). -/
def dedupFirst (l : List String) : List String :=
  dedupFirstAux [] l

/-- The languages pushed first by `extractTechnologies`
(`if (repo.language) technologies.push(repo.language)`). -/
def langList (repo : RawRepo) : List String :=
  if truthy repo.language then [repo.language.getD ""] else []

/-- The technology-related topics pushed second by `extractTechnologies`.
When `repo.topics` is `null` or empty the push is skipped, which agrees
with filtering the defaulted list. -/
def techTopicsOf (repo : RawRepo) : List String :=
  (repo.topics.getD []).filter isTechnologyTopic

/-- `GitHubApiClient.extractTechnologies`: language first, then technology
topics, deduplicated, normalized, and truncated to 6 entries. -/
def extractTechnologies (repo : RawRepo) : List String :=
  ((dedupFirst (langList repo ++ techTopicsOf repo)).map normalizeTechnologyName).take 6

/-- `GitHubApiClient.isFeaturedRepo`. -/
def isFeaturedRepo (repo : RawRepo) : Bool :=
  let hasStars := (repo.stargazers_count.getD 0) > 0
  let hasFeaturedTopic := (repo.topics.getD []).contains "featured"
  let isPortfolio := strIncludes (strToLower repo.name) "portfolio"
  hasStars || hasFeaturedTopic || isPortfolio

/-! ## `js/github-api.js` : demo URL resolution -/

/-- `GitHubApiClient.isVercelUrl`: the hostname ends in a Vercel domain
(the `try/catch` around `new URL` becomes the `Option` match). -/
def isVercelUrl (url : String) : Bool :=
  let vercelDomains := ["vercel.app", "vercel.com", "now.sh"]
  match parseUrl url with
  | none => false
  | some urlObj => vercelDomains.any (fun domain => strEndsWith urlObj.hostname domain)

/-- `GitHubApiClient.isValidDeployUrl`: http(s) URL whose hostname ends in
one of the known deploy-service domains. -/
def isValidDeployUrl (url : String) : Bool :=
  let deployDomains :=
    ["netlify.app", "netlify.com", "herokuapp.com", "github.io",
     "pages.dev", "railway.app", "surge.sh"]
  match parseUrl url with
  | none => false
  | some urlObj =>
    if !(["http:", "https:"].contains urlObj.protocol) then false
    else deployDomains.any (fun domain => strEndsWith urlObj.hostname domain)

/-- `GitHubApiClient.likelyHasGitHubPages`. -/
def likelyHasGitHubPages (repo : RawRepo) : Bool :=
  let repoName := strToLower repo.name
  let description := strToLower (repo.description.getD "")
  let topics := repo.topics.getD []
  let webKeywords :=
    ["website", "site", "page", "portfolio", "blog", "docs",
     "documentation", "demo", "landing", "web"]
  let hasWebKeyword :=
    webKeywords.any (fun keyword => strIncludes repoName keyword) ||
    webKeywords.any (fun keyword => strIncludes description keyword) ||
    topics.any (fun topic => webKeywords.contains (strToLower topic))
  let frontendTech := ["html", "css", "javascript", "react", "vue"]
  let hasFrontendTech :=
    (match repo.language with
     | some l => frontendTech.contains (strToLower l)
     | none => false) ||
    topics.any (fun topic => frontendTech.contains (strToLower topic))
  let hasGitHubPagesTopic := topics.contains "github-pages"
  hasWebKeyword || hasFrontendTech || hasGitHubPagesTopic

/-- `GitHubApiClient.getGitHubPagesUrl`: the user site
`<username>.github.io` always yields the user-site URL; otherwise the
project-site URL is produced only when `likelyHasGitHubPages` holds. -/
def getGitHubPagesUrl (repo : RawRepo) : Option String :=
  let username := GITHUB_CONFIG.USERNAME
  if repo.name = username ++ ".github.io" then
    some ("https://" ++ username ++ ".github.io/")
  else if likelyHasGitHubPages repo then
    some ("https://" ++ username ++ ".github.io/" ++ repo.name ++ "/")
  else none

/-- `GitHubApiClient.getDemoUrl`: homepage on a Vercel / deploy domain
first, then the GitHub Pages URL, then the raw trimmed homepage, else
`null`. -/
def getDemoUrl (repo : RawRepo) : Option String :=
  let step1 : Option String :=
    if truthy repo.homepage then
      let homepage := strTrim (repo.homepage.getD "")
      if isVercelUrl homepage then some homepage
      else if isValidDeployUrl homepage then some homepage
      else none
    else none
  match step1 with
  | some u => some u
  | none =>
    match getGitHubPagesUrl repo with
    | some u => some u
    | none =>
      if truthy repo.homepage ∧ strTrim (repo.homepage.getD "") ≠ "" then
        some (strTrim (repo.homepage.getD ""))
      else none

/-! ## `js/github-api.js` : processing and sorting -/

/-- Stable insertion of `x` after every element `y` of the accumulator
with `le y x`. Together with `jsSort` this models the observable
behaviour of `Array.prototype.sort` with a consistent comparator
(ECMAScript sorting is stable): `le y x` stands for `compare(y,x) <= 0`. -/
def jsInsert (le : α → α → Bool) : List α → α → List α
  | [], x => [x]
  | y :: ys, x => if le y x then y :: jsInsert le ys x else x :: y :: ys

/-- Stable sort by the comparator-induced relation `le`; models
`Array.prototype.sort`. -/
def jsSort (le : α → α → Bool) (l : List α) : List α :=
  l.foldl (jsInsert le) []

/-- The comparator passed to `.sort` in `processRepositories`
(`-1` puts `a` first, `1` puts `b` first, else descending star count with
`|| 0` defaulting). -/
def compareEntries (a b : ProjectEntry) : Int :=
  if a.featured ∧ ¬ b.featured then -1
  else if ¬ a.featured ∧ b.featured then 1
  else (b.githubData.stars.getD 0 : Int) - (a.githubData.stars.getD 0 : Int)

/-- `compare(a,b) <= 0`, the relation under which the JS sort orders. -/
def entryLe (a b : ProjectEntry) : Bool :=
  decide (compareEntries a b ≤ 0)

/-- The record built for each repository by `processRepositories`. -/
def toProjectEntry (repo : RawRepo) : ProjectEntry :=
  { id := "github-" ++ repo.name
    title := repo.name
    description := if truthy repo.description then repo.description.getD "" else "説明がありません"
    technologies := extractTechnologies repo
    image := none
    demoUrl := getDemoUrl repo
    sourceUrl := repo.html_url
    status := "completed"
    featured := isFeaturedRepo repo
    githubData :=
      { stars := repo.stargazers_count
        language := repo.language
        updatedAt := repo.updated_at
        createdAt := repo.created_at
        topics := repo.topics.getD [] } }

/-- `GitHubApiClient.processRepositories`: drop excluded names, drop
forks, map to entries, sort featured-first then by stars descending. -/
def processRepositories (repos : List RawRepo) : List ProjectEntry :=
  jsSort entryLe
    (((repos.filter (fun repo => !(GITHUB_CONFIG.EXCLUDED_REPOS.contains repo.name))).filter
        (fun repo => !repo.fork)).map toProjectEntry)

/-- `GitHubApiClient.getFallbackRepositories` (current version: the
API-failure fallback shows no projects at all). -/
def getFallbackRepositories : List ProjectEntry := []

/-! ## `js/github-api.js` : client state, cache and rate limiting -/

/-- One value stored in the cache `Map`: `{ data, timestamp }`. -/
structure CacheEntry where
  data : List ProjectEntry
  timestamp : Int
deriving DecidableEq

/-- Insert-or-replace on an association list, modelling `Map.prototype.set`
(replacing keeps the original position, inserting appends). -/
def mapSet (m : List (String × CacheEntry)) (k : String) (v : CacheEntry) :
    List (String × CacheEntry) :=
  match m with
  | [] => [(k, v)]
  | (k', v') :: rest => if k' = k then (k, v) :: rest else (k', v') :: mapSet rest k v

/-- Key removal, modelling `Map.prototype.delete`. -/
def mapDelete (m : List (String × CacheEntry)) (k : String) :
    List (String × CacheEntry) :=
  m.filter (fun p => p.1 ≠ k)

/-- The mutable fields of a `GitHubApiClient` instance. The cache `Map` is
an insertion-ordered association list. -/
structure ClientState where
  cache : List (String × CacheEntry)
  lastRequestTime : Int
  isLoading : Bool
deriving DecidableEq

/-- The state set up by the `GitHubApiClient` constructor. -/
def initClient : ClientState :=
  { cache := [], lastRequestTime := 0, isLoading := false }

/-- `GitHubApiClient.getCachedData`, with `Date.now()` passed in as `now`:
a missing entry yields `null`; an entry older than `CACHE_DURATION`
(strictly) is deleted and yields `null`; otherwise its data is returned.
(`if (cachedData)` in the caller: a JavaScript array is always truthy, so
presence alone decides the hit.) -/
def getCachedData (st : ClientState) (now : Int) (key : String) :
    Option (List ProjectEntry) × ClientState :=
  match st.cache.lookup key with
  | none => (none, st)
  | some cached =>
    if now - cached.timestamp > GITHUB_CONFIG.CACHE_DURATION then
      (none, { st with cache := mapDelete st.cache key })
    else (some cached.data, st)

/-- `GitHubApiClient.setCachedData`, with `Date.now()` passed in as `now`. -/
def setCachedData (st : ClientState) (key : String) (data : List ProjectEntry)
    (now : Int) : ClientState :=
  { st with cache := mapSet st.cache key { data := data, timestamp := now } }

/-- `GitHubApiClient.respectRateLimit`, with the first `Date.now()` passed
in as `now`. Returns the waited time and the new state; the second
`Date.now()` (after the `setTimeout` of `waitTime`) is modelled as
`now + waitTime`, i.e. the timer fires exactly on time. -/
def respectRateLimit (st : ClientState) (now : Int) : Int × ClientState :=
  let timeSinceLastRequest := now - st.lastRequestTime
  if timeSinceLastRequest < GITHUB_CONFIG.RATE_LIMIT_DELAY then
    let waitTime := GITHUB_CONFIG.RATE_LIMIT_DELAY - timeSinceLastRequest
    (waitTime, { st with lastRequestTime := now + waitTime })
  else (0, { st with lastRequestTime := now })

/-- `GitHubApiClient.fetchUserRepositories`, with `Date.now()` passed in as
`now`. The single `fetch` + `response.ok` check + `response.json()` are
abstracted into the `response` oracle (`Except.error` models both a network
failure and the `throw` on a non-ok status). The third component counts the
`fetch` calls performed: the function always issues exactly one request and
never re-attempts, whatever the outcome. -/
def fetchUserRepositories (st : ClientState) (now : Int)
    (response : Except String (List RawRepo)) :
    Except String (List RawRepo) × ClientState × Nat :=
  let st' := (respectRateLimit st now).2
  (response, st', 1)

/-- `GitHubApiClient.getRepositories`, with the `Date.now()` readings of the
cache check, the rate-limit check and the cache store passed in as
`tCheck`, `tReq` and `tStore`. The returned triple is the resolved value,
the final state (the `finally` block clears `isLoading`), and the number of
`fetch` calls performed. The `catch` block turns any fetch error into
`getFallbackRepositories`, so the result type carries no error. -/
def getRepositories (st : ClientState) (tCheck tReq tStore : Int)
    (response : Except String (List RawRepo)) :
    List ProjectEntry × ClientState × Nat :=
  let cached := (getCachedData st tCheck "user-repositories").1
  let st1 := (getCachedData st tCheck "user-repositories").2
  match cached with
  | some data => (data, { st1 with isLoading := false }, 0)
  | none =>
    let st2 := { st1 with isLoading := true }
    let fetched := fetchUserRepositories st2 tReq response
    let st3 := fetched.2.1
    match fetched.1 with
    | Except.ok repos =>
      let processedRepos := processRepositories repos
      let st4 := setCachedData st3 "user-repositories" processedRepos tStore
      (processedRepos, { st4 with isLoading := false }, fetched.2.2)
    | Except.error _ =>
      (getFallbackRepositories, { st3 with isLoading := false }, fetched.2.2)

/-- `GitHubApiClient.clearCache`. -/
def clearCache (st : ClientState) : ClientState :=
  { st with cache := [] }

/-- `GitHubApiClient.isLoadingData` (a pure query; it does not change the
state). -/
def isLoadingData (st : ClientState) : Bool :=
  st.isLoading

/-- One invocation of a public operation of the client, with arbitrary
clock readings and fetch outcome. -/
inductive ClientStep : ClientState → ClientState → Prop where
  | getRepos (st : ClientState) (tCheck tReq tStore : Int)
      (response : Except String (List RawRepo)) :
      ClientStep st (getRepositories st tCheck tReq tStore response).2.1
  | clear (st : ClientState) : ClientStep st (clearCache st)
  | query (st : ClientState) : ClientStep st st

/-- States reachable from construction by any sequence of public
operations. -/
def ReachableClient (st : ClientState) : Prop :=
  Relation.ReflTransGen ClientStep initClient st

/-! ## Utility module : safe DOM queries

`document.querySelector(All)` is modelled as an oracle from selector
strings to either a thrown exception (`Except.error`, e.g. the
`SyntaxError` raised on an invalid selector) or a result. -/

/-- `safeQuerySelector`: the `try/catch` around `document.querySelector`.
On a throw it logs a warning and returns `null`. -/
def safeQuerySelector {α : Type} (query : String → Except String (Option α))
    (selector : String) : Except String (Option α) :=
  match query selector with
  | Except.ok e => Except.ok e
  | Except.error _ => Except.ok none

/-- `safeQuerySelectorAll`: the `try/catch` around
`document.querySelectorAll`. The `catch` handler re-invokes the query with
the empty selector (`document.querySelectorAll('')`), so its outcome is
whatever that second call produces. -/
def safeQuerySelectorAll {α : Type} (queryAll : String → Except String (List α))
    (selector : String) : Except String (List α) :=
  match queryAll selector with
  | Except.ok l => Except.ok l
  | Except.error _ => queryAll ""

/-- A standard browser `querySelectorAll` on a document with no matching
elements: per the CSS selector grammar the empty string and `"!!!"` are
invalid selectors and throw a `SyntaxError`; other selectors succeed. -/
def browserQueryAll : String → Except String (List Unit) :=
  fun selector =>
    if selector = "" ∨ selector = "!!!" then Except.error "SyntaxError"
    else Except.ok []

/-- The same browser model for the single-element query. -/
def browserQueryOne : String → Except String (Option Unit) :=
  fun selector =>
    if selector = "" ∨ selector = "!!!" then Except.error "SyntaxError"
    else Except.ok none

/-! ## `js/main.js` : skills rendering -/

/-- One entry of a `skills` array in `skillsData`. -/
structure Skill where
  name : String
  level : String
  icon : String
  description : String
deriving DecidableEq

/-- One category entry of `skillsData`. -/
structure SkillCategory where
  category : String
  skills : List Skill
deriving DecidableEq

/-- Expansion of one character under HTML text-node escaping. -/
def escapeChar (c : Char) : List Char :=
  if c = '&' then "&amp;".data
  else if c = '<' then "&lt;".data
  else if c = '>' then "&gt;".data
  else [c]

/-- `escapeHtml` from the utility module: assigning `textContent` on a
`div` and reading back `innerHTML` escapes exactly `&`, `<` and `>`
(quotes are left alone by text-node serialisation). -/
def escapeHtml (s : String) : String :=
  String.mk (s.data.map escapeChar).flatten

/-- `PortfolioApp.getLevelText`. -/
def getLevelText (level : String) : String :=
  match level with
  | "beginner" => "基礎"
  | "intermediate" => "中級"
  | "advanced" => "上級"
  | other => other

/-- Right-nested string concatenation; `html += piece` accumulation and
`Array.prototype.join('')` both produce this concatenation. -/
def strJoin : List String → String
  | [] => ""
  | s :: rest => s ++ strJoin rest

/-- The skill-card template literal from `PortfolioApp.renderSkills`
(inter-tag template whitespace elided; `skill.icon` and the
`getLevelText` output are interpolated unescaped, exactly as in the
source). -/
def skillCardHtml (skill : Skill) : String :=
  "<div class=\"skill-card skill-card--" ++ escapeHtml skill.level ++
  "\" data-skill=\"" ++ escapeHtml skill.name ++
  "\"><div class=\"skill-card__icon\">" ++ skill.icon ++
  "</div><div class=\"skill-card__content\"><h4 class=\"skill-card__name\">" ++
  escapeHtml skill.name ++
  "</h4><p class=\"skill-card__description\">" ++ escapeHtml skill.description ++
  "</p><span class=\"skill-card__level skill-card__level--" ++ escapeHtml skill.level ++
  "\">" ++ getLevelText skill.level ++ "</span></div></div>"

/-- The per-category template literal from `PortfolioApp.renderSkills`. -/
def categoryHtml (c : SkillCategory) : String :=
  "<div class=\"skills__category\" data-category=\"" ++ escapeHtml c.category ++
  "\"><h3 class=\"skills__category-title\">" ++ escapeHtml c.category ++
  "</h3><div class=\"skills__list\">" ++ strJoin (c.skills.map skillCardHtml) ++
  "</div></div>"

/-- The HTML string `PortfolioApp.renderSkills` assigns to the container:
the no-skills message when `isEmpty(skillsData)`, otherwise the
accumulated category blocks. (Finding the container and the `innerHTML`
assignment are DOM effects outside the produced value; the `try/catch`
body is pure string building and cannot throw.) -/
def renderSkillsHtml (skillsData : List SkillCategory) : String :=
  if skillsData.length = 0 then "<p class=\"text-center\">スキル情報がありません</p>"
  else strJoin (skillsData.map categoryHtml)

/-- Number of positions of `s` at which `m` occurs as a contiguous
substring (the formalisation of "the HTML contains exactly `n` blocks"). -/
def countOcc (m : List Char) : List Char → Nat
  | [] => 0
  | c :: cs => (if m <+: (c :: cs) then 1 else 0) + countOcc m cs

/-- The opening markup of a `skills__category` block (the class attribute
of the block `div`; the `skills__category-title` heading does not contain
it, nor does any other produced tag). -/
def catMarker : List Char := "<div class=\"skills__category\"".data

/-- The opening markup of a skill card (the trailing space separates it
from the `skill-card__...` inner tags). -/
def cardMarker : List Char := "<div class=\"skill-card ".data

/-! ## Spec-side statements of the demo-URL rule (for claim C2) -/

/-- The demo-URL rule exactly as the specification states it: the trimmed
homepage when it lies on a known hosting-provider domain; otherwise the
heuristically-constructed GitHub Pages project URL
`https://purplehoge.github.io/<repo-name>/` when the repository is judged
likely to have GitHub Pages; otherwise the raw trimmed homepage when one
is present; otherwise `null`. -/
def getDemoUrlClaim (repo : RawRepo) : Option String :=
  let t := strTrim (repo.homepage.getD "")
  if truthy repo.homepage ∧ (isVercelUrl t ∨ isValidDeployUrl t) then some t
  else if likelyHasGitHubPages repo then
    some ("https://" ++ GITHUB_CONFIG.USERNAME ++ ".github.io/" ++ repo.name ++ "/")
  else if t ≠ "" then some t
  else none

/-- The demo-URL rule amended by the user-site special case the code
actually implements: when the repository is named
`purplehoge.github.io`, the constructed GitHub Pages URL is the user-site
URL `https://purplehoge.github.io/` and it is returned regardless of the
likelihood judgement; the rest of the rule is unchanged. -/
def getDemoUrlAmended (repo : RawRepo) : Option String :=
  let t := strTrim (repo.homepage.getD "")
  if truthy repo.homepage ∧ (isVercelUrl t ∨ isValidDeployUrl t) then some t
  else if repo.name = GITHUB_CONFIG.USERNAME ++ ".github.io" then
    some ("https://" ++ GITHUB_CONFIG.USERNAME ++ ".github.io/")
  else if likelyHasGitHubPages repo then
    some ("https://" ++ GITHUB_CONFIG.USERNAME ++ ".github.io/" ++ repo.name ++ "/")
  else if t ≠ "" then some t
  else none

/-- A repository record named like the GitHub user site, with no homepage
and nothing suggesting GitHub Pages to the likelihood heuristic. -/
def userSiteRepo : RawRepo :=
  { name := "purplehoge.github.io"
    fork := false
    description := none
    homepage := none
    language := none
    topics := none
    stargazers_count := none
    html_url := "https://github.com/purplehoge/purplehoge.github.io"
    updated_at := ""
    created_at := "" }

/-! ## Lemmas about the cache map model -/

theorem lookup_mapSet_self (m : List (String × CacheEntry)) (k : String) (v : CacheEntry) :
    (mapSet m k v).lookup k = some v := by
  induction m with
  | nil => simp [mapSet]
  | cons p rest ih =>
    obtain ⟨k', v'⟩ := p
    by_cases h : k' = k
    · simp [mapSet, h]
    · have hne : (k == k') = false := by simp [Ne.symm h]
      simp [mapSet, h, List.lookup_cons, hne, ih]

theorem lookup_mapDelete_self (m : List (String × CacheEntry)) (k : String) :
    (mapDelete m k).lookup k = none := by
  induction m with
  | nil => simp [mapDelete]
  | cons p rest ih =>
    obtain ⟨k', v'⟩ := p
    by_cases h : k' = k
    · simpa [mapDelete, h] using ih
    · have hne : (k == k') = false := by simp [Ne.symm h]
      simp only [mapDelete] at ih ⊢
      simp [h, List.lookup_cons, hne, ih]
      exact fun a b _ hak hka => hak hka.symm

/-! ## Claim C1 -/

/-- C1: whenever the cache misses and the fetch step fails, the promise
returned by `getRepositories` does not reject (the model's result type is a
plain list: the `catch` block absorbs the error) and the resolved value is
the fallback list, which is empty; nothing but console diagnostics is
produced. -/
theorem spec_C1 (st : ClientState) (tCheck tReq tStore : Int) (e : String)
    (hmiss : (getCachedData st tCheck "user-repositories").1 = none) :
    (getRepositories st tCheck tReq tStore (Except.error e)).1 = getFallbackRepositories ∧
    getFallbackRepositories = ([] : List ProjectEntry) := by
  refine ⟨?_, rfl⟩
  unfold getRepositories
  rw [hmiss]
  simp [fetchUserRepositories]

/-- Witness for C1 at a concrete fresh client and a concrete error. -/
theorem spec_C1_witness :
    (getCachedData initClient 0 "user-repositories").1 = none ∧
    (getRepositories initClient 0 0 0 (Except.error "network down")).1 = getFallbackRepositories ∧
    getFallbackRepositories = ([] : List ProjectEntry) :=
  ⟨rfl, spec_C1 initClient 0 0 0 "network down" rfl⟩

theorem respectRateLimit_cache (st : ClientState) (now : Int) :
    (respectRateLimit st now).2.cache = st.cache := by
  unfold respectRateLimit
  dsimp only
  split <;> rfl

/-! ## Claim C3 -/

/-- C3: with a cached entry present, `getRepositories` serves from the
cache exactly when the entry's age (cache-check time minus stored
timestamp) does not exceed one hour: within the window the cached list is
returned, no fetch happens and the cache is untouched; past the window the
entry is deleted, exactly one fresh fetch happens, and on success its
processed result is stored under the key with the new timestamp (on
failure the deleted entry simply stays gone). -/
theorem spec_C3 (st : ClientState) (tCheck tReq tStore : Int)
    (response : Except String (List RawRepo)) (entry : CacheEntry)
    (hentry : st.cache.lookup "user-repositories" = some entry) :
    (tCheck - entry.timestamp ≤ 3600000 →
      (getRepositories st tCheck tReq tStore response).1 = entry.data ∧
      (getRepositories st tCheck tReq tStore response).2.2 = 0 ∧
      (getRepositories st tCheck tReq tStore response).2.1.cache = st.cache) ∧
    (3600000 < tCheck - entry.timestamp →
      (getRepositories st tCheck tReq tStore response).2.2 = 1 ∧
      (∀ repos, response = Except.ok repos →
        (getRepositories st tCheck tReq tStore response).1 = processRepositories repos ∧
        (getRepositories st tCheck tReq tStore response).2.1.cache.lookup "user-repositories" =
          some { data := processRepositories repos, timestamp := tStore }) ∧
      (∀ e, response = Except.error e →
        (getRepositories st tCheck tReq tStore response).2.1.cache.lookup "user-repositories" =
          none)) := by
  have hdur : GITHUB_CONFIG.CACHE_DURATION = 3600000 := rfl
  constructor
  · intro hle
    have hcond : ¬ (tCheck - entry.timestamp > GITHUB_CONFIG.CACHE_DURATION) := by
      rw [hdur]; omega
    unfold getRepositories getCachedData
    rw [hentry]
    simp [hcond]
  · intro hgt
    have hcond : tCheck - entry.timestamp > GITHUB_CONFIG.CACHE_DURATION := by
      rw [hdur]; omega
    unfold getRepositories getCachedData
    rw [hentry]
    simp only [if_pos hcond]
    refine ⟨?_, ?_, ?_⟩
    · cases response <;> simp [fetchUserRepositories]
    · rintro repos rfl
      simp [fetchUserRepositories, setCachedData, lookup_mapSet_self]
    · rintro e rfl
      simp [fetchUserRepositories, respectRateLimit_cache, lookup_mapDelete_self, mapDelete]
      exact fun a b _ hak hka => hak hka.symm

/-- Witness for C3: a client holding a fresh entry serves it from the
cache. -/
theorem spec_C3_witness :
    ((setCachedData initClient "user-repositories" [] 0).cache.lookup "user-repositories" =
      some { data := [], timestamp := 0 }) ∧
    ((0 : Int) - (0 : Int) ≤ 3600000) ∧
    (getRepositories (setCachedData initClient "user-repositories" [] 0) 0 0 0
        (Except.ok [])).1 = [] := by
  refine ⟨rfl, by decide, ?_⟩
  have h := spec_C3 (setCachedData initClient "user-repositories" [] 0) 0 0 0
    (Except.ok []) { data := [], timestamp := 0 } rfl
  exact (h.1 (by decide)).1

/-! ## Claim C4 -/

/-- The single-entry cache invariant: the map is empty or holds exactly
the `'user-repositories'` entry. -/
def cacheWF (st : ClientState) : Prop :=
  st.cache = [] ∨ ∃ e, st.cache = [("user-repositories", e)]

theorem clientStep_cacheWF {st st' : ClientState} (hstep : ClientStep st st')
    (hwf : cacheWF st) : cacheWF st' := by
  cases hstep with
  | clear => left; rfl
  | query => exact hwf
  | getRepos tCheck tReq tStore response =>
    rcases hwf with hc | ⟨e, hc⟩
    · have h1 : getCachedData st tCheck "user-repositories" = (none, st) := by
        unfold getCachedData
        rw [hc]
        rfl
      unfold getRepositories
      rw [h1]
      cases response with
      | ok repos =>
        right
        refine ⟨{ data := processRepositories repos, timestamp := tStore }, ?_⟩
        simp [fetchUserRepositories, setCachedData, respectRateLimit_cache, hc, mapSet]
      | error err =>
        left
        simp [fetchUserRepositories, respectRateLimit_cache, hc]
    · have hl : st.cache.lookup "user-repositories" = some e := by rw [hc]; rfl
      unfold getRepositories getCachedData
      rw [hl]
      by_cases hexp : tCheck - e.timestamp > GITHUB_CONFIG.CACHE_DURATION
      · simp only [if_pos hexp]
        have hdel : mapDelete st.cache "user-repositories" = [] := by
          rw [hc]; rfl
        cases response with
        | ok repos =>
          right
          refine ⟨{ data := processRepositories repos, timestamp := tStore }, ?_⟩
          simp [fetchUserRepositories, setCachedData, respectRateLimit_cache, hdel, mapSet]
        | error err =>
          left
          simp [fetchUserRepositories, respectRateLimit_cache, hdel]
      · simp only [if_neg hexp]
        right
        exact ⟨e, hc⟩

/-- C4: in every state reachable from construction by any sequence of the
public operations, the cache holds at most one entry, and any entry sits
under the key `'user-repositories'`. -/
theorem spec_C4 (st : ClientState) (h : ReachableClient st) :
    st.cache = [] ∨ ∃ e, st.cache = [("user-repositories", e)] := by
  induction h with
  | refl => left; rfl
  | tail _ hstep ih => exact clientStep_cacheWF hstep ih

/-- Witness for C4: the state after one `getRepositories` call on a fresh
client is reachable and satisfies the invariant. -/
theorem spec_C4_witness :
    (ReachableClient (getRepositories initClient 0 0 0 (Except.ok [])).2.1) ∧
    ((getRepositories initClient 0 0 0 (Except.ok [])).2.1.cache = [] ∨
      ∃ e, (getRepositories initClient 0 0 0 (Except.ok [])).2.1.cache =
        [("user-repositories", e)]) :=
  have hr : ReachableClient (getRepositories initClient 0 0 0 (Except.ok [])).2.1 :=
    Relation.ReflTransGen.single (ClientStep.getRepos initClient 0 0 0 (Except.ok []))
  ⟨hr, spec_C4 _ hr⟩

/-! ## Claim C5 -/

/-- C5: rate limiting is exactly the fixed inter-request delay: when less
than 1000 ms has passed since the recorded previous request the client
waits exactly the remaining difference (otherwise it waits nothing), the
recorded start times of consecutive requests are at least 1000 ms apart,
and a fetch is issued exactly once per call with its outcome passed
through unchanged — no retry and no backoff. -/
theorem spec_C5 (st : ClientState) (now : Int)
    (response : Except String (List RawRepo)) :
    ((now - st.lastRequestTime < 1000 →
        (respectRateLimit st now).1 = 1000 - (now - st.lastRequestTime)) ∧
      (1000 ≤ now - st.lastRequestTime → (respectRateLimit st now).1 = 0)) ∧
    1000 ≤ (respectRateLimit st now).2.lastRequestTime - st.lastRequestTime ∧
    (fetchUserRepositories st now response).2.2 = 1 ∧
    (fetchUserRepositories st now response).1 = response := by
  have heq : respectRateLimit st now =
      if now - st.lastRequestTime < 1000 then
        (1000 - (now - st.lastRequestTime),
          { st with lastRequestTime := now + (1000 - (now - st.lastRequestTime)) })
      else (0, { st with lastRequestTime := now }) := rfl
  have hfetch : fetchUserRepositories st now response =
      (response, (respectRateLimit st now).2, 1) := rfl
  rw [hfetch, heq]
  by_cases hc : now - st.lastRequestTime < (1000 : Int)
  · rw [if_pos hc]
    refine ⟨⟨fun _ => rfl, fun hge => absurd hc (by omega)⟩, ?_, rfl, rfl⟩
    show (1000 : Int) ≤ now + (1000 - (now - st.lastRequestTime)) - st.lastRequestTime
    omega
  · rw [if_neg hc]
    refine ⟨⟨fun hlt => absurd hlt hc, fun _ => rfl⟩, ?_, rfl, rfl⟩
    show (1000 : Int) ≤ now - st.lastRequestTime
    omega

/-- Witness for C5 at a fresh client 500 ms after the epoch. -/
theorem spec_C5_witness :
    ((500 : Int) - initClient.lastRequestTime < 1000) ∧
    (respectRateLimit initClient 500).1 = 1000 - ((500 : Int) - initClient.lastRequestTime) ∧
    1000 ≤ (respectRateLimit initClient 500).2.lastRequestTime - initClient.lastRequestTime ∧
    (fetchUserRepositories initClient 500 (Except.ok [])).2.2 = 1 := by
  have h := spec_C5 initClient 500 (Except.ok [])
  exact ⟨by decide, h.1.1 (by decide), h.2.1, h.2.2.1⟩

/-! ## Claim C6 -/

/-- C6 evaluation at the failing input: on the invalid selector `"!!!"`
`safeQuerySelector` indeed swallows the throw and yields `null`, but
`safeQuerySelectorAll` does not return an empty node list — its `catch`
handler calls `document.querySelectorAll('')`, and the empty string is
itself an invalid selector in a standard browser, so the `SyntaxError`
propagates to the caller, contradicting the code's own comment
and the claim. -/
theorem spec_C6_bug :
    safeQuerySelector browserQueryOne "!!!" = Except.ok none ∧
    safeQuerySelectorAll browserQueryAll "!!!" = Except.error "SyntaxError" :=
  ⟨rfl, rfl⟩

/-! ## Claim C2 -/

/-- C2 counterexample: on a repository named `purplehoge.github.io` with no
homepage and nothing the likelihood heuristic recognises, the code returns
the user-site URL while the claimed rule returns `null` (and even had the
heuristic fired, the claimed project URL would differ from the user-site
URL the code builds). -/
theorem spec_C2_counterexample :
    getDemoUrl userSiteRepo = some "https://purplehoge.github.io/" ∧
    likelyHasGitHubPages userSiteRepo = false ∧
    userSiteRepo.homepage = none ∧
    getDemoUrlClaim userSiteRepo = none := by
  refine ⟨by decide, by decide, rfl, by decide⟩

/-- C2 amended: the code's demo-URL resolution agrees with the claimed
rule on every repository once the user-site special case is added. -/
theorem getDemoUrl_eq_amended (repo : RawRepo) :
    getDemoUrl repo = getDemoUrlAmended repo := by
  have htrim : truthy repo.homepage = false → strTrim (repo.homepage.getD "") = "" := by
    cases hh : repo.homepage with
    | none => intro _; rfl
    | some s =>
      intro hf
      have hs : s = "" := by
        by_contra hne
        simp [truthy, hne] at hf
      subst hs
      rfl
  unfold getDemoUrl getDemoUrlAmended getGitHubPagesUrl
  by_cases h1 : truthy repo.homepage = true
  · by_cases hv : isVercelUrl (strTrim (repo.homepage.getD "")) = true
    · simp [h1, hv]
    · by_cases hd : isValidDeployUrl (strTrim (repo.homepage.getD "")) = true
      · simp [h1, hv, hd]
      · by_cases hn : repo.name = GITHUB_CONFIG.USERNAME ++ ".github.io"
        · simp [h1, hv, hd, hn]
        · by_cases hl : likelyHasGitHubPages repo = true
          · simp [h1, hv, hd, hn, hl]
          · by_cases ht : strTrim (repo.homepage.getD "") = ""
            · rw [ht] at hv hd
              simp [h1, hv, hd, hn, hl, ht]
            · simp [h1, hv, hd, hn, hl, ht]
  · have h1f : truthy repo.homepage = false := by
      cases h : truthy repo.homepage
      · rfl
      · exact absurd h h1
    have ht := htrim h1f
    by_cases hn : repo.name = GITHUB_CONFIG.USERNAME ++ ".github.io"
    · simp [h1f, hn, ht]
    · by_cases hl : likelyHasGitHubPages repo = true
      · simp [h1f, hn, hl, ht]
      · simp [h1f, hn, hl, ht]

/-! ## Lemmas about the sort model -/

theorem jsInsert_perm {α : Type} (le : α → α → Bool) (l : List α) (x : α) :
    (jsInsert le l x).Perm (x :: l) := by
  induction l with
  | nil => exact List.Perm.refl _
  | cons y ys ih =>
    unfold jsInsert
    by_cases h : le y x = true
    · rw [if_pos h]
      exact (List.Perm.cons y ih).trans (List.Perm.swap x y ys)
    · rw [if_neg h]

theorem jsSort_perm {α : Type} (le : α → α → Bool) (l : List α) :
    (jsSort le l).Perm l := by
  suffices h : ∀ acc : List α, (l.foldl (jsInsert le) acc).Perm (acc ++ l) by
    simpa using h []
  induction l with
  | nil => intro acc; simp
  | cons x xs ih =>
    intro acc
    simp only [List.foldl_cons]
    exact ((ih _).trans ((jsInsert_perm le acc x).append_right xs)).trans
      List.perm_middle.symm

theorem jsInsert_pairwise {α : Type} (le : α → α → Bool)
    (htot : ∀ a b, le a b = true ∨ le b a = true)
    (htrans : ∀ a b c, le a b = true → le b c = true → le a c = true)
    (acc : List α) (x : α) (h : acc.Pairwise (fun a b => le a b = true)) :
    (jsInsert le acc x).Pairwise (fun a b => le a b = true) := by
  induction acc with
  | nil => simp [jsInsert]
  | cons y ys ih =>
    rcases List.pairwise_cons.mp h with ⟨hy, hys⟩
    unfold jsInsert
    by_cases hle : le y x = true
    · rw [if_pos hle]
      refine List.pairwise_cons.mpr ⟨?_, ih hys⟩
      intro z hz
      have hz' : z = x ∨ z ∈ ys := by
        simpa using (jsInsert_perm le ys x).mem_iff.mp hz
      rcases hz' with rfl | hzys
      · exact hle
      · exact hy z hzys
    · rw [if_neg hle]
      have hxy : le x y = true := (htot x y).resolve_right (fun h2 => hle h2)
      refine List.pairwise_cons.mpr ⟨?_, h⟩
      intro z hz
      rcases List.mem_cons.mp hz with rfl | hzys
      · exact hxy
      · exact htrans x y z hxy (hy z hzys)

theorem jsSort_pairwise {α : Type} (le : α → α → Bool)
    (htot : ∀ a b, le a b = true ∨ le b a = true)
    (htrans : ∀ a b c, le a b = true → le b c = true → le a c = true)
    (l : List α) : (jsSort le l).Pairwise (fun a b => le a b = true) := by
  suffices h : ∀ acc : List α, acc.Pairwise (fun a b => le a b = true) →
      (l.foldl (jsInsert le) acc).Pairwise (fun a b => le a b = true) by
    exact h [] List.Pairwise.nil
  induction l with
  | nil => intro acc hacc; simpa using hacc
  | cons x xs ih =>
    intro acc hacc
    simp only [List.foldl_cons]
    exact ih _ (jsInsert_pairwise le htot htrans acc x hacc)

theorem entryLe_iff (a b : ProjectEntry) :
    entryLe a b = true ↔
      ((a.featured = true ∧ b.featured = false) ∨
        (a.featured = b.featured ∧
          (b.githubData.stars.getD 0 : Int) ≤ (a.githubData.stars.getD 0 : Int))) := by
  unfold entryLe compareEntries
  cases ha : a.featured <;> cases hb : b.featured <;> simp [ha, hb] <;> omega

theorem entryLe_total : ∀ a b : ProjectEntry, entryLe a b = true ∨ entryLe b a = true := by
  intro a b
  rw [entryLe_iff, entryLe_iff]
  cases ha : a.featured <;> cases hb : b.featured <;> simp [ha, hb] <;> omega

theorem entryLe_trans : ∀ a b c : ProjectEntry,
    entryLe a b = true → entryLe b c = true → entryLe a c = true := by
  intro a b c
  rw [entryLe_iff, entryLe_iff, entryLe_iff]
  cases ha : a.featured <;> cases hb : b.featured <;> cases hc : c.featured <;>
    simp [ha, hb, hc] <;> omega

/-! ## Claim C8 -/

/-- C8: every entry produced by `processRepositories` comes from an input
repository that is not a fork and whose name is not excluded; excluded or
forked repositories never reach the output. -/
theorem spec_C8 (repos : List RawRepo) (r : ProjectEntry)
    (h : r ∈ processRepositories repos) :
    ∃ repo, repo ∈ repos ∧ repo.fork = false ∧
      GITHUB_CONFIG.EXCLUDED_REPOS.contains repo.name = false ∧
      r = toProjectEntry repo := by
  unfold processRepositories at h
  have h2 := (jsSort_perm entryLe _).mem_iff.mp h
  rcases List.mem_map.mp h2 with ⟨repo, hmem, rfl⟩
  rcases List.mem_filter.mp hmem with ⟨hmem1, hfork⟩
  rcases List.mem_filter.mp hmem1 with ⟨hmem0, hexcl⟩
  refine ⟨repo, hmem0, ?_, ?_, rfl⟩
  · simpa using hfork
  · simpa using hexcl

/-- Witness for C8 on a concrete one-element repository list. -/
theorem spec_C8_witness :
    (toProjectEntry userSiteRepo ∈ processRepositories [userSiteRepo]) ∧
    ∃ repo, repo ∈ [userSiteRepo] ∧ repo.fork = false ∧
      GITHUB_CONFIG.EXCLUDED_REPOS.contains repo.name = false ∧
      toProjectEntry userSiteRepo = toProjectEntry repo := by
  have hmem : toProjectEntry userSiteRepo ∈ processRepositories [userSiteRepo] := by decide
  exact ⟨hmem, spec_C8 [userSiteRepo] (toProjectEntry userSiteRepo) hmem⟩

/-! ## Claim C9 -/

/-- C9: in the output of `processRepositories` every featured entry
precedes every non-featured one, and among entries with the same featured
flag the (`|| 0`-defaulted) star counts are non-increasing. -/
theorem spec_C9 (repos : List RawRepo) :
    (processRepositories repos).Pairwise (fun a b =>
      (b.featured = true → a.featured = true) ∧
      (a.featured = b.featured →
        (b.githubData.stars.getD 0 : Int) ≤ (a.githubData.stars.getD 0 : Int))) := by
  unfold processRepositories
  refine (jsSort_pairwise entryLe entryLe_total entryLe_trans _).imp ?_
  intro a b hab
  rw [entryLe_iff] at hab
  constructor
  · intro hbf
    rcases hab with ⟨haf, hbf'⟩ | ⟨heq, _⟩
    · exact haf
    · rw [heq]; exact hbf
  · intro heq
    rcases hab with ⟨haf, hbf'⟩ | ⟨_, hle⟩
    · rw [haf, hbf'] at heq; cases heq
    · exact hle

/-! ## Claim C10 -/

theorem mem_of_mem_dedupFirstAux {t : String} (seen l : List String)
    (h : t ∈ dedupFirstAux seen l) : t ∈ l := by
  induction l generalizing seen with
  | nil => simpa [dedupFirstAux] using h
  | cons x xs ih =>
    unfold dedupFirstAux at h
    by_cases hc : seen.contains x = true
    · rw [if_pos hc] at h
      exact List.mem_cons_of_mem x (ih seen h)
    · rw [if_neg hc] at h
      rcases List.mem_cons.mp h with rfl | h2
      · exact List.mem_cons_self _ _
      · exact List.mem_cons_of_mem x (ih _ h2)

/-- C10: `extractTechnologies` yields at most 6 names; the list is the
deduplication (performed before name normalization) of the primary
language (when present, first) followed by the technology-related topics,
normalized and truncated; and every output name is the normalization of
the language or of a technology topic of the repository. -/
theorem spec_C10 (repo : RawRepo) :
    (extractTechnologies repo).length ≤ 6 ∧
    extractTechnologies repo =
      ((dedupFirst (langList repo ++ techTopicsOf repo)).map normalizeTechnologyName).take 6 ∧
    ∀ t ∈ extractTechnologies repo, ∃ s,
      t = normalizeTechnologyName s ∧
      ((truthy repo.language = true ∧ repo.language.getD "" = s) ∨
        (s ∈ repo.topics.getD [] ∧ isTechnologyTopic s = true)) := by
  refine ⟨List.length_take_le _ _, rfl, ?_⟩
  intro t ht
  unfold extractTechnologies at ht
  have ht2 := List.mem_of_mem_take ht
  rcases List.mem_map.mp ht2 with ⟨s, hs, rfl⟩
  have hs2 : s ∈ langList repo ++ techTopicsOf repo :=
    mem_of_mem_dedupFirstAux [] _ hs
  refine ⟨s, rfl, ?_⟩
  rcases List.mem_append.mp hs2 with hl | hr
  · left
    unfold langList at hl
    by_cases htr : truthy repo.language = true
    · rw [if_pos htr] at hl
      exact ⟨htr, (List.mem_singleton.mp hl).symm⟩
    · rw [if_neg htr] at hl
      cases hl
  · right
    unfold techTopicsOf at hr
    rcases List.mem_filter.mp hr with ⟨hmem, htech⟩
    exact ⟨hmem, htech⟩

/-- Witness for C10 on a concrete repository with a language and mixed
topics. -/
theorem spec_C10_witness :
    ("JavaScript" ∈ extractTechnologies
        { name := "x", fork := false, description := none, homepage := none,
          language := some "JavaScript",
          topics := some ["javascript", "react-app", "cool"],
          stargazers_count := none, html_url := "", updated_at := "",
          created_at := "" }) ∧
    ∃ s, "JavaScript" = normalizeTechnologyName s ∧
      ((truthy (some "JavaScript") = true ∧ (some "JavaScript").getD "" = s) ∨
        (s ∈ (some ["javascript", "react-app", "cool"]).getD [] ∧
          isTechnologyTopic s = true)) := by
  have hmem : "JavaScript" ∈ extractTechnologies
      { name := "x", fork := false, description := none, homepage := none,
        language := some "JavaScript",
        topics := some ["javascript", "react-app", "cool"],
        stargazers_count := none, html_url := "", updated_at := "",
        created_at := "" } := by decide
  exact ⟨hmem, (spec_C10 _).2.2 "JavaScript" hmem⟩

/-! ## Substring-counting lemmas (claim C7) -/

/-- `m` cannot straddle the border of `a ++ anything`: no nonempty proper
prefix of `m` is a suffix of `a`. -/
abbrev SpanFree (m a : List Char) : Prop :=
  ∀ k, k < m.length → 0 < k → ¬ (m.take k <:+ a)

theorem strData_append (s t : String) : (s ++ t).data = s.data ++ t.data := rfl

theorem spanFree_tail {m a : List Char} {c : Char} (h : SpanFree m (c :: a)) :
    SpanFree m a := by
  intro k hk hk0 hsuf
  exact h k hk hk0 (hsuf.trans (List.suffix_cons c a))

theorem countOcc_append (m a b : List Char) (h : SpanFree m a) :
    countOcc m (a ++ b) = countOcc m a + countOcc m b := by
  induction a with
  | nil => simp [countOcc]
  | cons c a' ih =>
    have h' : SpanFree m a' := spanFree_tail h
    have hiff : (m <+: (c :: (a' ++ b))) ↔ (m <+: c :: a') := by
      constructor
      · intro hp
        by_cases hlen : m.length ≤ (c :: a').length
        · rw [List.prefix_iff_eq_take] at hp ⊢
          refine hp.trans ?_
          rw [show (c :: (a' ++ b)) = (c :: a') ++ b from rfl]
          exact List.take_append_of_le_length hlen
        · exfalso
          push_neg at hlen
          have hpref : (c :: a') <+: m := by
            rw [List.prefix_iff_eq_take,
              show (c :: (a' ++ b)) = (c :: a') ++ b from rfl,
              List.take_append_eq_append_take,
              List.take_of_length_le (le_of_lt hlen)] at hp
            exact ⟨_, hp.symm⟩
          have htake : m.take (c :: a').length = c :: a' :=
            (List.prefix_iff_eq_take.mp hpref).symm
          have hsuf : m.take (c :: a').length <:+ (c :: a') := by
            rw [htake]
          exact h (c :: a').length hlen (by simp) hsuf
      · intro hp
        exact hp.trans
          (by rw [show (c :: (a' ++ b)) = (c :: a') ++ b from rfl]
              exact List.prefix_append _ _)
    show (if m <+: c :: (a' ++ b) then 1 else 0) + countOcc m (a' ++ b) =
      ((if m <+: c :: a' then 1 else 0) + countOcc m a') + countOcc m b
    rw [ih h']
    by_cases hp : m <+: c :: a'
    · rw [if_pos hp, if_pos (hiff.mpr hp)]
      omega
    · rw [if_neg hp, if_neg (fun hq => hp (hiff.mp hq))]
      omega

theorem countOcc_eq_zero_of_not_mem (m a : List Char) (c₀ : Char) (hm : c₀ ∈ m)
    (ha : c₀ ∉ a) : countOcc m a = 0 := by
  induction a with
  | nil => rfl
  | cons c cs ih =>
    have hc : c₀ ∉ cs := fun h => ha (List.mem_cons_of_mem c h)
    unfold countOcc
    rw [ih hc, if_neg (fun hp : m <+: c :: cs => ha (hp.subset hm))]

theorem spanFree_of_not_mem (m a : List Char) (c₀ : Char) (hm : m.head? = some c₀)
    (ha : c₀ ∉ a) : SpanFree m a := by
  intro k hk hk0 hsuf
  cases m with
  | nil => cases hm
  | cons c m' =>
    have hc : c = c₀ := by
      simpa using hm
    subst hc
    have hmem : c ∈ (c :: m').take k := by
      cases k with
      | zero => omega
      | succ n => simp
    exact ha (hsuf.subset hmem)

theorem lt_not_mem_escapeChar (c : Char) : '<' ∉ escapeChar c := by
  unfold escapeChar
  by_cases h1 : c = '&'
  · rw [if_pos h1]; decide
  · rw [if_neg h1]
    by_cases h2 : c = '<'
    · rw [if_pos h2]; decide
    · rw [if_neg h2]
      by_cases h3 : c = '>'
      · rw [if_pos h3]; decide
      · rw [if_neg h3]
        simp only [List.mem_singleton]
        exact fun he => h2 he.symm

theorem lt_not_mem_escapeHtml (s : String) : '<' ∉ (escapeHtml s).data := by
  unfold escapeHtml
  intro h
  rcases List.mem_flatten.mp h with ⟨L, hL, hmem⟩
  rcases List.mem_map.mp hL with ⟨c, _, rfl⟩
  exact lt_not_mem_escapeChar c hmem

theorem countOcc_zero_escape (m : List Char) (hm : '<' ∈ m) (s : String) :
    countOcc m (escapeHtml s).data = 0 :=
  countOcc_eq_zero_of_not_mem m _ '<' hm (lt_not_mem_escapeHtml s)

theorem spanFree_escape (m : List Char) (hm : m.head? = some '<') (s : String) :
    SpanFree m (escapeHtml s).data :=
  spanFree_of_not_mem m _ '<' hm (lt_not_mem_escapeHtml s)

theorem countOcc_append_pieces (m : List Char) (ps : List (List Char)) (R : List Char)
    (hsf : ∀ p ∈ ps, SpanFree m p) :
    countOcc m (ps.flatten ++ R) = (ps.map (countOcc m)).sum + countOcc m R := by
  induction ps with
  | nil => simp
  | cons p ps ih =>
    have hstep : (p :: ps).flatten ++ R = p ++ (ps.flatten ++ R) := by simp
    rw [hstep, countOcc_append m p _ (hsf p (List.mem_cons_self _ _)),
      ih (fun q hq => hsf q (List.mem_cons_of_mem _ hq))]
    simp [Nat.add_assoc]

theorem countOcc_skillCard_cat (skill : Skill) (R : List Char)
    (hicon : '<' ∉ skill.icon.data) (hlvl : '<' ∉ (getLevelText skill.level).data) :
    countOcc catMarker ((skillCardHtml skill).data ++ R) = countOcc catMarker R := by
  have hhead : catMarker.head? = some '<' := rfl
  have hmem : '<' ∈ catMarker := by decide
  simp only [skillCardHtml, strData_append, List.append_assoc]
  rw [countOcc_append catMarker ("<div class=\"skill-card skill-card--".data),
    countOcc_append catMarker ((escapeHtml skill.level).data),
    countOcc_append catMarker ("\" data-skill=\"".data),
    countOcc_append catMarker ((escapeHtml skill.name).data),
    countOcc_append catMarker ("\"><div class=\"skill-card__icon\">".data),
    countOcc_append catMarker (skill.icon.data),
    countOcc_append catMarker
      ("</div><div class=\"skill-card__content\"><h4 class=\"skill-card__name\">".data),
    countOcc_append catMarker ((escapeHtml skill.name).data),
    countOcc_append catMarker ("</h4><p class=\"skill-card__description\">".data),
    countOcc_append catMarker ((escapeHtml skill.description).data),
    countOcc_append catMarker ("</p><span class=\"skill-card__level skill-card__level--".data),
    countOcc_append catMarker ((escapeHtml skill.level).data),
    countOcc_append catMarker ("\">".data),
    countOcc_append catMarker ((getLevelText skill.level).data),
    countOcc_append catMarker ("</span></div></div>".data)]
  · rw [countOcc_zero_escape _ hmem, countOcc_zero_escape _ hmem, countOcc_zero_escape _ hmem,
      countOcc_eq_zero_of_not_mem _ _ '<' hmem hicon,
      countOcc_eq_zero_of_not_mem _ _ '<' hmem hlvl,
      show countOcc catMarker ("<div class=\"skill-card skill-card--".data) = 0 from by decide,
      show countOcc catMarker ("\" data-skill=\"".data) = 0 from by decide,
      show countOcc catMarker ("\"><div class=\"skill-card__icon\">".data) = 0 from by decide,
      show countOcc catMarker
        ("</div><div class=\"skill-card__content\"><h4 class=\"skill-card__name\">".data) = 0
        from by decide,
      show countOcc catMarker ("</h4><p class=\"skill-card__description\">".data) = 0
        from by decide,
      show countOcc catMarker
        ("</p><span class=\"skill-card__level skill-card__level--".data) = 0 from by decide,
      show countOcc catMarker ("\">".data) = 0 from by decide,
      show countOcc catMarker ("</span></div></div>".data) = 0 from by decide]
    omega
  · decide
  · exact spanFree_of_not_mem _ _ '<' hhead hlvl
  · decide
  · exact spanFree_escape _ hhead _
  · decide
  · exact spanFree_escape _ hhead _
  · decide
  · exact spanFree_escape _ hhead _
  · decide
  · exact spanFree_of_not_mem _ _ '<' hhead hicon
  · decide
  · exact spanFree_escape _ hhead _
  · decide
  · exact spanFree_escape _ hhead _
  · decide

theorem countOcc_skillCard_card (skill : Skill) (R : List Char)
    (hicon : '<' ∉ skill.icon.data) (hlvl : '<' ∉ (getLevelText skill.level).data) :
    countOcc cardMarker ((skillCardHtml skill).data ++ R) = 1 + countOcc cardMarker R := by
  have hhead : cardMarker.head? = some '<' := rfl
  have hmem : '<' ∈ cardMarker := by decide
  simp only [skillCardHtml, strData_append, List.append_assoc]
  rw [countOcc_append cardMarker ("<div class=\"skill-card skill-card--".data),
    countOcc_append cardMarker ((escapeHtml skill.level).data),
    countOcc_append cardMarker ("\" data-skill=\"".data),
    countOcc_append cardMarker ((escapeHtml skill.name).data),
    countOcc_append cardMarker ("\"><div class=\"skill-card__icon\">".data),
    countOcc_append cardMarker (skill.icon.data),
    countOcc_append cardMarker
      ("</div><div class=\"skill-card__content\"><h4 class=\"skill-card__name\">".data),
    countOcc_append cardMarker ((escapeHtml skill.name).data),
    countOcc_append cardMarker ("</h4><p class=\"skill-card__description\">".data),
    countOcc_append cardMarker ((escapeHtml skill.description).data),
    countOcc_append cardMarker ("</p><span class=\"skill-card__level skill-card__level--".data),
    countOcc_append cardMarker ((escapeHtml skill.level).data),
    countOcc_append cardMarker ("\">".data),
    countOcc_append cardMarker ((getLevelText skill.level).data),
    countOcc_append cardMarker ("</span></div></div>".data)]
  · rw [countOcc_zero_escape _ hmem, countOcc_zero_escape _ hmem, countOcc_zero_escape _ hmem,
      countOcc_eq_zero_of_not_mem _ _ '<' hmem hicon,
      countOcc_eq_zero_of_not_mem _ _ '<' hmem hlvl,
      show countOcc cardMarker ("<div class=\"skill-card skill-card--".data) = 1 from by decide,
      show countOcc cardMarker ("\" data-skill=\"".data) = 0 from by decide,
      show countOcc cardMarker ("\"><div class=\"skill-card__icon\">".data) = 0 from by decide,
      show countOcc cardMarker
        ("</div><div class=\"skill-card__content\"><h4 class=\"skill-card__name\">".data) = 0
        from by decide,
      show countOcc cardMarker ("</h4><p class=\"skill-card__description\">".data) = 0
        from by decide,
      show countOcc cardMarker
        ("</p><span class=\"skill-card__level skill-card__level--".data) = 0 from by decide,
      show countOcc cardMarker ("\">".data) = 0 from by decide,
      show countOcc cardMarker ("</span></div></div>".data) = 0 from by decide]
    omega
  · decide
  · exact spanFree_of_not_mem _ _ '<' hhead hlvl
  · decide
  · exact spanFree_escape _ hhead _
  · decide
  · exact spanFree_escape _ hhead _
  · decide
  · exact spanFree_escape _ hhead _
  · decide
  · exact spanFree_of_not_mem _ _ '<' hhead hicon
  · decide
  · exact spanFree_escape _ hhead _
  · decide
  · exact spanFree_escape _ hhead _
  · decide

/-- The benignity condition under which the unescaped interpolations of the
card template cannot fabricate block markup. -/
abbrev benignSkills (sd : List SkillCategory) : Prop :=
  ∀ c ∈ sd, ∀ s ∈ c.skills, '<' ∉ s.icon.data ∧ '<' ∉ (getLevelText s.level).data

theorem countOcc_cards_cat (skills : List Skill) (R : List Char)
    (hb : ∀ s ∈ skills, '<' ∉ s.icon.data ∧ '<' ∉ (getLevelText s.level).data) :
    countOcc catMarker ((strJoin (skills.map skillCardHtml)).data ++ R) =
      countOcc catMarker R := by
  induction skills with
  | nil => rfl
  | cons s ss ih =>
    have hstep : (strJoin ((s :: ss).map skillCardHtml)).data ++ R =
        (skillCardHtml s).data ++ ((strJoin (ss.map skillCardHtml)).data ++ R) := by
      simp [strJoin, strData_append, List.append_assoc]
    rw [hstep,
      countOcc_skillCard_cat s _ (hb s (List.mem_cons_self _ _)).1
        (hb s (List.mem_cons_self _ _)).2,
      ih (fun q hq => hb q (List.mem_cons_of_mem _ hq))]

theorem countOcc_cards_card (skills : List Skill) (R : List Char)
    (hb : ∀ s ∈ skills, '<' ∉ s.icon.data ∧ '<' ∉ (getLevelText s.level).data) :
    countOcc cardMarker ((strJoin (skills.map skillCardHtml)).data ++ R) =
      skills.length + countOcc cardMarker R := by
  induction skills with
  | nil => simp [strJoin, countOcc]
  | cons s ss ih =>
    have hstep : (strJoin ((s :: ss).map skillCardHtml)).data ++ R =
        (skillCardHtml s).data ++ ((strJoin (ss.map skillCardHtml)).data ++ R) := by
      simp [strJoin, strData_append, List.append_assoc]
    rw [hstep,
      countOcc_skillCard_card s _ (hb s (List.mem_cons_self _ _)).1
        (hb s (List.mem_cons_self _ _)).2,
      ih (fun q hq => hb q (List.mem_cons_of_mem _ hq))]
    simp only [List.length_cons]
    omega

theorem countOcc_catHtml_cat (c : SkillCategory) (R : List Char)
    (hb : ∀ s ∈ c.skills, '<' ∉ s.icon.data ∧ '<' ∉ (getLevelText s.level).data) :
    countOcc catMarker ((categoryHtml c).data ++ R) = 1 + countOcc catMarker R := by
  have hhead : catMarker.head? = some '<' := rfl
  have hmem : '<' ∈ catMarker := by decide
  simp only [categoryHtml, strData_append, List.append_assoc]
  rw [countOcc_append catMarker ("<div class=\"skills__category\" data-category=\"".data),
    countOcc_append catMarker ((escapeHtml c.category).data),
    countOcc_append catMarker ("\"><h3 class=\"skills__category-title\">".data),
    countOcc_append catMarker ((escapeHtml c.category).data),
    countOcc_append catMarker ("</h3><div class=\"skills__list\">".data),
    countOcc_cards_cat c.skills _ hb,
    countOcc_append catMarker ("</div></div>".data)]
  · rw [countOcc_zero_escape _ hmem,
      show countOcc catMarker ("<div class=\"skills__category\" data-category=\"".data) = 1
        from by decide,
      show countOcc catMarker ("\"><h3 class=\"skills__category-title\">".data) = 0
        from by decide,
      show countOcc catMarker ("</h3><div class=\"skills__list\">".data) = 0 from by decide,
      show countOcc catMarker ("</div></div>".data) = 0 from by decide]
    omega
  · decide
  · decide
  · exact spanFree_escape _ hhead _
  · decide
  · exact spanFree_escape _ hhead _
  · decide

theorem countOcc_catHtml_card (c : SkillCategory) (R : List Char)
    (hb : ∀ s ∈ c.skills, '<' ∉ s.icon.data ∧ '<' ∉ (getLevelText s.level).data) :
    countOcc cardMarker ((categoryHtml c).data ++ R) =
      c.skills.length + countOcc cardMarker R := by
  have hhead : cardMarker.head? = some '<' := rfl
  have hmem : '<' ∈ cardMarker := by decide
  simp only [categoryHtml, strData_append, List.append_assoc]
  rw [countOcc_append cardMarker ("<div class=\"skills__category\" data-category=\"".data),
    countOcc_append cardMarker ((escapeHtml c.category).data),
    countOcc_append cardMarker ("\"><h3 class=\"skills__category-title\">".data),
    countOcc_append cardMarker ((escapeHtml c.category).data),
    countOcc_append cardMarker ("</h3><div class=\"skills__list\">".data),
    countOcc_cards_card c.skills _ hb,
    countOcc_append cardMarker ("</div></div>".data)]
  · rw [countOcc_zero_escape _ hmem,
      show countOcc cardMarker ("<div class=\"skills__category\" data-category=\"".data) = 0
        from by decide,
      show countOcc cardMarker ("\"><h3 class=\"skills__category-title\">".data) = 0
        from by decide,
      show countOcc cardMarker ("</h3><div class=\"skills__list\">".data) = 0 from by decide,
      show countOcc cardMarker ("</div></div>".data) = 0 from by decide]
    omega
  · decide
  · decide
  · exact spanFree_escape _ hhead _
  · decide
  · exact spanFree_escape _ hhead _
  · decide

theorem countOcc_cats_cat (sd : List SkillCategory) (R : List Char) (hb : benignSkills sd) :
    countOcc catMarker ((strJoin (sd.map categoryHtml)).data ++ R) =
      sd.length + countOcc catMarker R := by
  induction sd with
  | nil => simp [strJoin, countOcc]
  | cons c cs ih =>
    have hstep : (strJoin ((c :: cs).map categoryHtml)).data ++ R =
        (categoryHtml c).data ++ ((strJoin (cs.map categoryHtml)).data ++ R) := by
      simp [strJoin, strData_append, List.append_assoc]
    rw [hstep, countOcc_catHtml_cat c _ (hb c (List.mem_cons_self _ _)),
      ih (fun q hq s hs => hb q (List.mem_cons_of_mem _ hq) s hs)]
    simp only [List.length_cons]
    omega

theorem countOcc_cats_card (sd : List SkillCategory) (R : List Char) (hb : benignSkills sd) :
    countOcc cardMarker ((strJoin (sd.map categoryHtml)).data ++ R) =
      (sd.map (fun c => c.skills.length)).sum + countOcc cardMarker R := by
  induction sd with
  | nil => simp [strJoin, countOcc]
  | cons c cs ih =>
    have hstep : (strJoin ((c :: cs).map categoryHtml)).data ++ R =
        (categoryHtml c).data ++ ((strJoin (cs.map categoryHtml)).data ++ R) := by
      simp [strJoin, strData_append, List.append_assoc]
    rw [hstep, countOcc_catHtml_card c _ (hb c (List.mem_cons_self _ _)),
      ih (fun q hq s hs => hb q (List.mem_cons_of_mem _ hq) s hs)]
    simp only [List.map_cons, List.sum_cons]
    omega

/-! ## Claim C7 -/

/-- A `skillsData` value whose single skill smuggles the category-opening
markup in through the unescaped `icon` interpolation. -/
def evilSkillsData : List SkillCategory :=
  [{ category := "Cat",
     skills := [{ name := "N", level := "beginner",
                  icon := "<div class=\"skills__category\" data-category=\"x\">",
                  description := "d" }] }]

set_option maxRecDepth 4096 in
/-- C7 counterexample: `skill.icon` (and the `getLevelText` output) are
interpolated into the card template without escaping, so a `skillsData`
with one category can render HTML containing two `skills__category`
opening tags — the claim's "exactly one block per category" fails as
universally stated. -/
theorem spec_C7_counterexample :
    evilSkillsData.length = 1 ∧
    countOcc catMarker (renderSkillsHtml evilSkillsData).data = 2 :=
  ⟨rfl, by decide⟩

/-- C7 amended: provided no skill's icon or rendered level text contains
the character `<` (in particular for the repository's actual `skillsData`),
`renderSkills` produces HTML with exactly one `skills__category` block per
category entry and, within each category block, one skill card per skill
of that category. -/
theorem spec_C7_amended (sd : List SkillCategory) (hb : benignSkills sd) :
    countOcc catMarker (renderSkillsHtml sd).data = sd.length ∧
    countOcc cardMarker (renderSkillsHtml sd).data =
      (sd.map (fun c => c.skills.length)).sum ∧
    ∀ c ∈ sd, countOcc catMarker (categoryHtml c).data = 1 ∧
      countOcc cardMarker (categoryHtml c).data = c.skills.length := by
  refine ⟨?_, ?_, ?_⟩
  · cases sd with
    | nil => decide
    | cons c cs =>
      unfold renderSkillsHtml
      rw [if_neg (by simp)]
      have h := countOcc_cats_cat (c :: cs) [] hb
      rw [List.append_nil] at h
      exact h
  · cases sd with
    | nil => decide
    | cons c cs =>
      unfold renderSkillsHtml
      rw [if_neg (by simp)]
      have h := countOcc_cats_card (c :: cs) [] hb
      rw [List.append_nil] at h
      exact h
  · intro c hc
    have h1 := countOcc_catHtml_cat c [] (hb c hc)
    have h2 := countOcc_catHtml_card c [] (hb c hc)
    rw [List.append_nil] at h1 h2
    exact ⟨h1, h2⟩

/-- A small benign `skillsData` on which the amended C7 statement is
exercised concretely. -/
def demoSkillsData : List SkillCategory :=
  [{ category := "Frontend",
     skills := [{ name := "HTML5", level := "advanced", icon := "X", description := "markup" },
                { name := "CSS3", level := "advanced", icon := "Y", description := "styles" }] }]

/-- Witness for the amended C7 on a concrete benign skills list. -/
theorem spec_C7_witness :
    benignSkills demoSkillsData ∧
    countOcc catMarker (renderSkillsHtml demoSkillsData).data = 1 ∧
    countOcc cardMarker (renderSkillsHtml demoSkillsData).data = 2 := by
  have hb : benignSkills demoSkillsData := by decide
  have h := spec_C7_amended demoSkillsData hb
  exact ⟨hb, h.1, h.2.1⟩

/-- Witness for the amended C2 at a concrete repository. -/
theorem spec_C2_witness :
    getDemoUrl userSiteRepo = getDemoUrlAmended userSiteRepo :=
  getDemoUrl_eq_amended userSiteRepo

/-- Witness for C9 at a concrete repository list. -/
theorem spec_C9_witness :
    (processRepositories [userSiteRepo]).Pairwise (fun a b =>
      (b.featured = true → a.featured = true) ∧
      (a.featured = b.featured →
        (b.githubData.stars.getD 0 : Int) ≤ (a.githubData.stars.getD 0 : Int))) :=
  spec_C9 [userSiteRepo]
